import Mathlib

/-!
Verification of the `distribcalc` prime-computation server.

The definitions below are a shallow embedding of the Python sources:
  * `src/distribcalc/tasks.py`    — `is_prime`, `primes_in_range`, `count_primes`
  * `src/distribcalc/protocol.py` — `Message.to_wire`, `Message.from_wire`
  * `src/distribcalc/server.py`   — `ServerStats`, `TaskDispatcher`, `_require_int`,
    client registration, and the lock discipline around the shared stats record.

Python unbounded integers are modelled by `Int` (or `Nat` where the source value
is provably non-negative), floating-point durations by `ℚ`, JSON values by an
inductive `Json` type, and exceptions by `Except String`.
-/

namespace DistribCalc

/-! ## tasks.py -/

/-- The 6k±1 trial-division loop of `is_prime` (tasks.py lines 17-23):
`k` starts at 5 with `step = 2`, and `step` alternates between 2 and 4
(`step = 6 - step`).  `twoStep = true` means the next increment is 2.
Returns `false` as soon as a divisor `k ≤ limit` of `n` is found. -/
def wheelLoop (n limit k : Nat) (twoStep : Bool) : Bool :=
  if k ≤ limit then
    if n % k = 0 then false
    else wheelLoop n limit (k + (if twoStep then 2 else 4)) (!twoStep)
  else true
termination_by limit + 1 - k
decreasing_by cases twoStep <;> simp_all <;> omega

/-- Embedding of `tasks.is_prime` (tasks.py lines 8-24).  Python's `math.isqrt` is `Nat.sqrt`;
for `n ≥ 2` Python's `%` agrees with `Nat` remainder on `n.toNat`. -/
def is_prime (n : Int) : Bool :=
  if n < 2 then false
  else
    let m := n.toNat
    if m = 2 ∨ m = 3 then true
    else if m % 2 = 0 ∨ m % 3 = 0 then false
    else wheelLoop m (Nat.sqrt m) 5 true

/-- Embedding of `tasks.primes_in_range` (tasks.py lines 27-35): swap the endpoints when
`start > end`, then collect `is_prime` values of `start, start+1, ..., end`
(Python's `range(start, end + 1)`). -/
def primes_in_range (start fin : Int) : List Int :=
  let lo := if start > fin then fin else start
  let hi := if start > fin then start else fin
  ((List.range (hi - lo + 1).toNat).map (fun i : Nat => lo + (i : Int))).filter
    (fun v => is_prime v)

/-- Embedding of `tasks.count_primes` (tasks.py lines 38-40). -/
def count_primes (start fin : Int) : Int :=
  (primes_in_range start fin).length

/-! ## protocol.py

JSON values as produced by Python's `json.loads`: integer literals become
Python `int` (constructor `Json.int`), other numerics become `float`
(constructor `Json.num`), `null` becomes `None` (constructor `Json.null`).
A decoded JSON object is a Python `dict`; it is modelled as an association
list whose keys are unique, so `dict.get` is `find?` on the list. -/

inductive Json where
  | null : Json
  | bool (b : Bool) : Json
  | int (i : Int) : Json
  | num (q : ℚ) : Json
  | str (s : String) : Json
  | arr (elems : List Json) : Json
  | obj (fields : List (String × Json)) : Json

/-- Python `dict.get(key)` on a decoded JSON object: `some` the stored value,
`none` when the key is absent. -/
def jget (fields : List (String × Json)) (key : String) : Option Json :=
  (fields.find? (fun p => p.1 == key)).map (fun p => p.2)

/-- Whether a JSON value is an object (`isinstance(v, dict)`). -/
def Json.isObj : Json → Bool
  | .obj _ => true
  | _ => false

/-- Whether a JSON value is a Python `int` in the strict sense
(`type(v) is int`); booleans are excluded here. -/
def Json.isInt : Json → Bool
  | .int _ => true
  | _ => false

/-- Whether a JSON value is a boolean. -/
def Json.isBool : Json → Bool
  | .bool _ => true
  | _ => false

/-- ASCII lower-casing of one character, as `str.lower` acts on the
command strings of this protocol. -/
def lowerChar (c : Char) : Char :=
  if 'A' ≤ c ∧ c ≤ 'Z' then Char.ofNat (c.toNat + 32) else c

/-- Python `str.lower` on a string (ASCII model). -/
def lowerStr (s : String) : String :=
  String.mk (s.data.map lowerChar)

/-- Embedding of `protocol.Message` (protocol.py lines 13-18). -/
structure Message where
  command : String
  data : List (String × Json)

/-- Embedding of `Message.to_wire` (protocol.py lines 20-22): the JSON object
`{"command": self.command, "data": self.data}` that `json.dumps` serializes
to one wire line. -/
def Message.to_wire (m : Message) : Json :=
  Json.obj [("command", Json.str m.command), ("data", Json.obj m.data)]

/-- Embedding of `Message.from_wire` (protocol.py lines 24-40).  The argument is the
result of `json.loads raw`: `none` when the line is not valid JSON (the
`json.JSONDecodeError` branch), `some j` otherwise.  Note that
`loaded.get("data")` returns Python `None` both when the `"data"` key is
absent and when its value is JSON `null`; either way `data` defaults to the
empty dict. -/
def Message.from_wire (parsed : Option Json) : Except String Message :=
  match parsed with
  | none => Except.error "payload is not valid JSON"
  | some loaded =>
    match loaded with
    | Json.obj fields =>
      match jget fields "command" with
      | some (Json.str command) =>
        match jget fields "data" with
        | none => Except.ok { command := lowerStr command, data := [] }
        | some Json.null => Except.ok { command := lowerStr command, data := [] }
        | some (Json.obj d) => Except.ok { command := lowerStr command, data := d }
        | some _ => Except.error "data field must be a JSON object"
      | _ => Except.error "command field must be a string"
    | _ => Except.error "payload must be a JSON object"

/-! ## server.py -/

/-- An apostrophe character, kept out of string literals. -/
def apos : Char := Char.ofNat 39

/-- The message of the `ProtocolError` raised by `_require_int`
(server.py line 231): `field <key-in-quotes> must be an integer`. -/
def intFieldError (key : String) : String :=
  "field " ++ String.singleton apos ++ key ++ String.singleton apos ++
    " must be an integer"

/-- Embedding of `_require_int` (server.py lines 228-232).  `isinstance(value, int)` is
true for Python booleans as well (`bool` is a subclass of `int`), so a JSON
`true`/`false` passes the check and is returned, acting as `1`/`0`. -/
def require_int (data : List (String × Json)) (key : String) : Except String Int :=
  match jget data key with
  | some (Json.int v) => Except.ok v
  | some (Json.bool b) => Except.ok (if b then 1 else 0)
  | _ => Except.error (intFieldError key)

/-- Embedding of `ServerStats` (server.py lines 23-33).  Counters are Python ints that
are only ever incremented from 0, hence `Nat`; durations are floats,
modelled as `ℚ`; `active_clients` is set from a signed counter. -/
structure ServerStats where
  total_requests : Nat := 0
  prime_checks : Nat := 0
  range_requests : Nat := 0
  range_counts : Nat := 0
  cumulative_duration : ℚ := 0
  max_duration : ℚ := 0
  active_clients : Int := 0
  completed_clients : Nat := 0
  last_error : Option String := none

/-- First statement of `ServerStats.register_duration` (server.py lines
36-37): `if duration > self.max_duration: self.max_duration = duration`. -/
def maxStep (duration : ℚ) (s : ServerStats) : ServerStats :=
  if duration > s.max_duration then { s with max_duration := duration } else s

/-- Second statement of `ServerStats.register_duration` (server.py line
38): `self.cumulative_duration += duration`. -/
def cumStep (duration : ℚ) (s : ServerStats) : ServerStats :=
  { s with cumulative_duration := s.cumulative_duration + duration }

/-- Embedding of `ServerStats.register_duration` (server.py lines 35-38). -/
def ServerStats.register_duration (s : ServerStats) (duration : ℚ) : ServerStats :=
  cumStep duration (maxStep duration s)

/-- Embedding of `ServerStats.average_duration` (server.py lines 40-44): derived on
read, `0.0` when no request completed yet. -/
def ServerStats.average_duration (s : ServerStats) : ℚ :=
  if s.total_requests = 0 then 0 else s.cumulative_duration / (s.total_requests : ℚ)

/-- Python's `round(x, 6)` on the duration fields, modelled on `ℚ`. -/
def round6 (q : ℚ) : ℚ :=
  ((round (q * 1000000) : Int) : ℚ) / 1000000

/-- The dictionary returned by `ServerStats.snapshot` (server.py lines
46-57). -/
structure StatsSnapshot where
  total_requests : Nat
  prime_checks : Nat
  range_requests : Nat
  range_counts : Nat
  average_duration_sec : ℚ
  max_duration_sec : ℚ
  active_clients : Int
  completed_clients : Nat
  last_error : Option String

/-- Embedding of `ServerStats.snapshot` (server.py lines 46-57). -/
def ServerStats.snapshot (s : ServerStats) : StatsSnapshot :=
  { total_requests := s.total_requests
    prime_checks := s.prime_checks
    range_requests := s.range_requests
    range_counts := s.range_counts
    average_duration_sec := round6 s.average_duration
    max_duration_sec := round6 s.max_duration
    active_clients := s.active_clients
    completed_clients := s.completed_clients
    last_error := s.last_error }

/-- The statement `self._stats.total_requests += 1` (server.py line 70), the first
statement of `_update_stats` inside the lock. -/
def incTotal (s : ServerStats) : ServerStats :=
  { s with total_requests := s.total_requests + 1 }

/-- The `if command == "prime" / "range" / "count"` chain of
`_update_stats` (server.py lines 71-76). -/
def bumpCommand (command : String) (s : ServerStats) : ServerStats :=
  if command = "prime" then { s with prime_checks := s.prime_checks + 1 }
  else if command = "range" then { s with range_requests := s.range_requests + 1 }
  else if command = "count" then { s with range_counts := s.range_counts + 1 }
  else s

/-- Embedding of `TaskDispatcher._update_stats` (server.py lines 68-77): the whole
critical section body, as a pure state transformer. -/
def update_stats (command : String) (duration : ℚ) (s : ServerStats) : ServerStats :=
  (bumpCommand command (incTotal s)).register_duration duration

/-- Success payload of `execute_prime` (server.py line 99). -/
structure PrimePayload where
  number : Int
  is_prime : Bool

/-- Success payload of `execute_range` (server.py lines 106-113); the
`"end"` key is spelled `endVal` because `end` is a Lean keyword. -/
structure RangePayload where
  start : Int
  endVal : Int
  count : Nat
  primes : List Int
  truncated : Bool
  duration_sec : ℚ

/-- Success payload of `execute_count` (server.py lines 120-125). -/
structure CountPayload where
  start : Int
  endVal : Int
  count : Int
  duration_sec : ℚ

/-- Embedding of `TaskDispatcher.execute_prime` (server.py lines 95-99).  The measured
wall-clock duration is an input of the model; the worker-pool round trip
computes `tasks.is_prime`. -/
def execute_prime (number : Int) (duration : ℚ) (s : ServerStats) :
    PrimePayload × ServerStats :=
  ({ number := number, is_prime := DistribCalc.is_prime number },
   update_stats "prime" duration s)

/-- Embedding of `TaskDispatcher.execute_range` (server.py lines 101-113). -/
def execute_range (start fin : Int) (duration : ℚ) (s : ServerStats) :
    RangePayload × ServerStats :=
  let primes := primes_in_range start fin
  ({ start := start
     endVal := fin
     count := primes.length
     primes := if primes.length ≤ 200 then primes else primes.take 200
     truncated := decide (primes.length > 200)
     duration_sec := round6 duration },
   update_stats "range" duration s)

/-- Embedding of `TaskDispatcher.execute_count` (server.py lines 115-125). -/
def execute_count (start fin : Int) (duration : ℚ) (s : ServerStats) :
    CountPayload × ServerStats :=
  ({ start := start
     endVal := fin
     count := count_primes start fin
     duration_sec := round6 duration },
   update_stats "count" duration s)

/-- One dispatcher operation, with its measured duration where the source
records one.  `stats` is `TaskDispatcher.stats` (server.py lines 91-93),
which only snapshots. -/
inductive DispatcherOp where
  | prime (number : Int) (duration : ℚ)
  | range (start fin : Int) (duration : ℚ)
  | count (start fin : Int) (duration : ℚ)
  | stats

/-- Effect of one dispatcher operation on the shared `ServerStats`. -/
def applyOp (s : ServerStats) (op : DispatcherOp) : ServerStats :=
  match op with
  | .prime n d => (execute_prime n d s).2
  | .range a b d => (execute_range a b d s).2
  | .count a b d => (execute_count a b d s).2
  | .stats => s

/-- The stats state after a sequence of dispatcher operations, starting
from the all-zero record. -/
def runOps (ops : List DispatcherOp) : ServerStats :=
  ops.foldl applyOp {}

/-! ### Client registration (server.py lines 142-147, 182-207)

`_register_client(delta)` adds `delta` to `self._client_counter` under
`_client_counter_lock` and returns the new value.  `_handle_client` calls
it with `+1` on entry — the returned value IS the client id — and with
`-1` on exit. -/

/-- Embedding of `DistributedPrimeServer._register_client`: the counter update. -/
def register_client (counter delta : Int) : Int :=
  counter + delta

/-- A session boundary event: a client connecting or disconnecting. -/
inductive SessionEv where
  | conn
  | disc
deriving DecidableEq

/-- The client ids handed out along a sequence of session events when the
counter starts at `c`: each `conn` receives `register_client c 1` as its
id, each `disc` runs `register_client c (-1)`. -/
def clientIds : List SessionEv → Int → List Int
  | [], _ => []
  | SessionEv.conn :: rest, c => register_client c 1 :: clientIds rest (register_client c 1)
  | SessionEv.disc :: rest, c => clientIds rest (register_client c (-1))

/-! ### The `_stats_lock` discipline (server.py lines 63-93)

Every method of `TaskDispatcher` that touches `self._stats` does so inside
`with self._stats_lock`.  To check that no reader can observe a partially
updated record, the critical sections are modelled at the granularity of
their individual Python statements (the micro steps below), and the lock as
a small-step transition system over any number of session threads.  A
thread must hold the lock to run a micro step; `snap` (the body of
`TaskDispatcher.stats`) mutates nothing and just reads under the lock. -/

/-- One lock-protected operation on the shared stats record. -/
inductive StatsOp where
  | update (command : String) (duration : ℚ)
  | setActive (value : Int)
  | incCompleted
  | setLastError (error : String)
  | snap

/-- The statements a critical section executes one by one while holding
`_stats_lock`.  `update` is the four statements of `_update_stats` (with
`register_duration` inlined to its two statements); the setters are single
assignments; `snap` only reads. -/
def microSteps : StatsOp → List (ServerStats → ServerStats)
  | .update command duration =>
      [incTotal, bumpCommand command, maxStep duration, cumStep duration]
  | .setActive value => [fun s => { s with active_clients := value }]
  | .incCompleted => [fun s => { s with completed_clients := s.completed_clients + 1 }]
  | .setLastError e => [fun s => { s with last_error := some e }]
  | .snap => []

/-- The net effect of one whole critical section. -/
def runStatsOp (s : ServerStats) (op : StatsOp) : ServerStats :=
  (microSteps op).foldl (fun t f => f t) s

/-- The stats record after a list of completed critical sections. -/
def applyHist (hist : List StatsOp) : ServerStats :=
  hist.foldl runStatsOp {}

/-- Global state of the dispatcher under concurrent sessions: the shared
stats record, the lock holder (if any), each thread's in-progress critical
section with its remaining micro steps, each thread's remaining program,
and the list of completed critical sections in completion order. -/
structure Sys where
  stats : ServerStats
  lock : Option Nat
  cur : Nat → Option (StatsOp × List (ServerStats → ServerStats))
  todo : Nat → List StatsOp
  hist : List StatsOp

/-- Initial state: all-zero stats, lock free, every thread outside any
critical section, with an arbitrary program still to run. -/
def Sys.init (progs : Nat → List StatsOp) : Sys :=
  { stats := {}, lock := none, cur := fun _ => none, todo := progs, hist := [] }

/-- Interleaving semantics: a thread may acquire the free lock to start
its next operation, execute the next statement of its critical section
while holding the lock, or release the lock when its critical section has
run to completion. -/
inductive Step : Sys → Sys → Prop where
  | acquire (σ : Sys) (t : Nat) (op : StatsOp) (rest : List StatsOp) :
      σ.lock = none → σ.cur t = none → σ.todo t = op :: rest →
      Step σ { σ with
        lock := some t
        cur := Function.update σ.cur t (some (op, microSteps op))
        todo := Function.update σ.todo t rest }
  | micro (σ : Sys) (t : Nat) (op : StatsOp) (f : ServerStats → ServerStats)
      (fs : List (ServerStats → ServerStats)) :
      σ.lock = some t → σ.cur t = some (op, f :: fs) →
      Step σ { σ with
        stats := f σ.stats
        cur := Function.update σ.cur t (some (op, fs)) }
  | release (σ : Sys) (t : Nat) (op : StatsOp) :
      σ.lock = some t → σ.cur t = some (op, []) →
      Step σ { σ with
        lock := none
        cur := Function.update σ.cur t none
        hist := σ.hist ++ [op] }

/-- States reachable from `Sys.init progs` by any interleaving. -/
def Reachable (progs : Nat → List StatsOp) (σ : Sys) : Prop :=
  Relation.ReflTransGen Step (Sys.init progs) σ

/-! ## Theorems -/

/-- The trial loop returns `true` exactly when no candidate divisor of the
6k±1 wheel between `k` and `limit` divides `n`.  The hypothesis records the
loop invariant: `k ≡ 5 (mod 6)` when the next increment is 2, `k ≡ 1` when
it is 4. -/
theorem wheelLoop_eq_true_iff (n limit : Nat) : ∀ (k : Nat) (ts : Bool),
    k % 6 = (if ts then 5 else 1) →
    (wheelLoop n limit k ts = true ↔
      ∀ m, k ≤ m → m ≤ limit → (m % 6 = 1 ∨ m % 6 = 5) → n % m ≠ 0) := by
  intro k ts
  induction k, ts using wheelLoop.induct n limit with
  | case1 k ts hle hdvd =>
    intro hk
    rw [wheelLoop, if_pos hle, if_pos hdvd]
    constructor
    · intro h
      exact absurd h (by simp)
    · intro h
      exfalso
      refine h k (le_refl k) hle ?_ hdvd
      cases ts <;> simp at hk <;> omega
  | case2 k ts hle hdvd ih =>
    intro hk
    have hk' : (k + (if ts then 2 else 4)) % 6 = (if !ts then 5 else 1) := by
      cases ts <;> simp at hk ⊢ <;> omega
    rw [wheelLoop, if_pos hle, if_neg hdvd]
    have ih' := ih hk'
    rw [show (k + if h : ts = true then 2 else 4) = (k + if ts then 2 else 4) by
      cases ts <;> simp] at ih'
    rw [ih']
    constructor
    · intro h m hkm hml hres
      rcases Nat.eq_or_lt_of_le hkm with heq | hlt
      · exact heq ▸ hdvd
      · refine h m ?_ hml hres
        cases ts <;> simp at hk ⊢ <;> omega
    · intro h m hkm hml hres
      refine h m ?_ hml hres
      cases ts <;> simp at hkm ⊢ <;> omega
  | case3 k ts hgt =>
    intro hk
    rw [wheelLoop, if_neg hgt]
    simp only [true_iff]
    intro m hkm hml _
    omega

/-- The function `is_prime` agrees with primality of the natural number `n.toNat`
(hence with primality of `n` itself for `n ≥ 2`: every `n < 2` has
`n.toNat ∈ {0, 1}`, which is not prime). -/
theorem is_prime_eq_true_iff (n : Int) : is_prime n = true ↔ Nat.Prime n.toNat := by
  rcases lt_or_le n 2 with h2 | h2
  · simp only [is_prime, if_pos h2, Bool.false_eq_true, false_iff]
    intro hp
    have := hp.two_le
    omega
  · have hn2 : ¬ n < 2 := not_lt.mpr h2
    simp only [is_prime, if_neg hn2]
    by_cases h23 : n.toNat = 2 ∨ n.toNat = 3
    · rw [if_pos h23]
      simp only [true_iff]
      rcases h23 with h | h <;> rw [h]
      · exact Nat.prime_two
      · exact Nat.prime_three
    · rw [if_neg h23]
      push_neg at h23
      have hm4 : 4 ≤ n.toNat := by omega
      by_cases hdiv : n.toNat % 2 = 0 ∨ n.toNat % 3 = 0
      · rw [if_pos hdiv]
        simp only [Bool.false_eq_true, false_iff]
        intro hp
        rcases hdiv with h | h
        · rcases hp.eq_one_or_self_of_dvd 2 (Nat.dvd_of_mod_eq_zero h) with h1 | h1 <;> omega
        · rcases hp.eq_one_or_self_of_dvd 3 (Nat.dvd_of_mod_eq_zero h) with h1 | h1 <;> omega
      · rw [if_neg hdiv]
        push_neg at hdiv
        have h5 : 5 ≤ n.toNat := by omega
        rw [wheelLoop_eq_true_iff n.toNat (Nat.sqrt n.toNat) 5 true (by norm_num)]
        constructor
        · intro hloop
          by_contra hnp
          have hp := Nat.minFac_prime (show n.toNat ≠ 1 by omega)
          have hdvd := Nat.minFac_dvd n.toNat
          have hsq : n.toNat.minFac ^ 2 ≤ n.toNat := Nat.minFac_sq_le_self (by omega) hnp
          have hle : n.toNat.minFac ≤ Nat.sqrt n.toNat := Nat.le_sqrt'.mpr hsq
          have hmod : n.toNat % n.toNat.minFac = 0 := Nat.dvd_iff_mod_eq_zero.mp hdvd
          have hp2 : n.toNat.minFac ≠ 2 := by
            intro h
            rw [h] at hmod
            omega
          have hp3 : n.toNat.minFac ≠ 3 := by
            intro h
            rw [h] at hmod
            omega
          have hp4 : n.toNat.minFac ≠ 4 := by
            intro h
            rw [h] at hp
            exact absurd hp (by decide)
          have hge2 := hp.two_le
          have hmod2 : n.toNat.minFac % 2 ≠ 0 := by
            intro h
            rcases hp.eq_one_or_self_of_dvd 2 (Nat.dvd_of_mod_eq_zero h) with h1 | h1 <;> omega
          have hmod3 : n.toNat.minFac % 3 ≠ 0 := by
            intro h
            rcases hp.eq_one_or_self_of_dvd 3 (Nat.dvd_of_mod_eq_zero h) with h1 | h1 <;> omega
          exact hloop n.toNat.minFac (by omega) hle (by omega) hmod
        · intro hp d h5d hdle hres hmod
          rcases hp.eq_one_or_self_of_dvd d (Nat.dvd_of_mod_eq_zero hmod) with h1 | h1
          · omega
          · have := Nat.sqrt_lt_self (show 1 < n.toNat by omega)
            omega

/-- C2: for every integer `n`, `is_prime n` returns `true` exactly when
`n` is prime: `n ≥ 2` with no divisor `d`, `1 < d < n`.  In particular it
is `false` for every `n < 2`, `true` for 2 and 3, and `false` for every
composite `n ≥ 2` because such an `n` has a divisor `1 < d < n`. -/
theorem is_prime_correct (n : Int) :
    is_prime n = true ↔ (2 ≤ n ∧ ∀ d : Int, 1 < d → d < n → ¬ d ∣ n) := by
  rw [is_prime_eq_true_iff]
  constructor
  · intro hp
    have h2 := hp.two_le
    have hn0 : 0 ≤ n := by
      by_contra h
      push_neg at h
      have : n.toNat = 0 := by omega
      omega
    have hn2 : 2 ≤ n := by omega
    refine ⟨hn2, fun d hd1 hdn hdvd => ?_⟩
    have hd0 : 0 ≤ d := by omega
    have hcast : ((d.toNat : Int)) ∣ ((n.toNat : Int)) := by
      rwa [Int.toNat_of_nonneg hd0, Int.toNat_of_nonneg hn0]
    have hdvdNat : d.toNat ∣ n.toNat := Int.ofNat_dvd.mp hcast
    rcases hp.eq_one_or_self_of_dvd d.toNat hdvdNat with h1 | h1 <;> omega
  · rintro ⟨h2, hnd⟩
    rw [Nat.prime_def_lt]
    refine ⟨by omega, fun m hm hmdvd => ?_⟩
    by_contra hm1
    have hm0 : m ≠ 0 := by
      intro h
      rw [h] at hmdvd
      have := Nat.eq_zero_of_zero_dvd hmdvd
      omega
    have hm2 : 2 ≤ m := by omega
    refine hnd (m : Int) (by omega) (by omega) ?_
    have : (m : Int) ∣ (n.toNat : Int) := Int.ofNat_dvd.mpr hmdvd
    rwa [Int.toNat_of_nonneg (by omega : (0:Int) ≤ n)] at this

/-- Witness for C2 at `n = 3`: `is_prime 3 = true`, so 3 is ≥ 2 and has
no proper divisor above 1. -/
theorem is_prime_correct_witness :
    2 ≤ (3 : Int) ∧ ∀ d : Int, 1 < d → d < 3 → ¬ d ∣ 3 :=
  (is_prime_correct 3).mp rfl

/-- Rewriting `primes_in_range` with the swap resolved into `min`/`max`. -/
theorem primes_in_range_eq (a b : Int) :
    primes_in_range a b =
      ((List.range ((max a b - min a b + 1).toNat)).map
        (fun i : Nat => min a b + (i : Int))).filter (fun v => is_prime v) := by
  rcases le_or_lt a b with h | h
  · have hng : ¬ a > b := not_lt.mpr h
    simp only [primes_in_range, if_neg hng, min_eq_left h, max_eq_right h]
  · simp only [primes_in_range, if_pos h, min_eq_right h.le, max_eq_left h.le]

/-- Membership in `primes_in_range`: the interval bound plus `is_prime`. -/
theorem mem_primes_in_range (a b v : Int) :
    v ∈ primes_in_range a b ↔
      min a b ≤ v ∧ v ≤ max a b ∧ is_prime v = true := by
  rw [primes_in_range_eq, List.mem_filter, List.mem_map]
  constructor
  · rintro ⟨⟨i, hi, hv⟩, hp⟩
    rw [List.mem_range] at hi
    refine ⟨?_, ?_, hp⟩ <;> omega
  · rintro ⟨h1, h2, hp⟩
    refine ⟨⟨(v - min a b).toNat, ?_, ?_⟩, hp⟩
    · rw [List.mem_range]
      omega
    · omega

/-- C3: `primes_in_range a b` holds exactly the primes of the closed
interval `[min a b, max a b]`, is strictly ascending, and is symmetric in
its two arguments. -/
theorem primes_in_range_correct (a b : Int) :
    (∀ v : Int, v ∈ primes_in_range a b ↔
      (min a b ≤ v ∧ v ≤ max a b ∧ 2 ≤ v ∧ ∀ d : Int, 1 < d → d < v → ¬ d ∣ v)) ∧
    (primes_in_range a b).Pairwise (· < ·) ∧
    primes_in_range a b = primes_in_range b a := by
  refine ⟨?_, ?_, ?_⟩
  · intro v
    rw [mem_primes_in_range, is_prime_correct]
  · rw [primes_in_range_eq]
    apply List.Pairwise.filter
    rw [List.pairwise_map]
    have hbase := List.pairwise_lt_range ((max a b - min a b + 1).toNat)
    exact hbase.imp (fun {i j} h => by omega)
  · rw [primes_in_range_eq, primes_in_range_eq, min_comm, max_comm]

/-- Witness for C3 at the concrete range `[1, 4]`, whose member 3 the
theorem certifies to be a prime between the endpoints. -/
theorem primes_in_range_correct_witness :
    min (1 : Int) 4 ≤ 3 ∧ (3 : Int) ≤ max (1 : Int) 4 ∧ 2 ≤ (3 : Int) ∧
      ∀ d : Int, 1 < d → d < 3 → ¬ d ∣ 3 :=
  ((primes_in_range_correct 1 4).1 3).mp (by decide)

/-- C4: the `execute_range` payload reports the untruncated count, returns
the first `min count 200` primes, and flags truncation exactly when more
than 200 primes were found. -/
theorem execute_range_payload_correct (a b : Int) (d : ℚ) (s : ServerStats) :
    (execute_range a b d s).1.count = (primes_in_range a b).length ∧
    (execute_range a b d s).1.primes =
      (primes_in_range a b).take (min (primes_in_range a b).length 200) ∧
    ((execute_range a b d s).1.truncated = true ↔ 200 < (primes_in_range a b).length) := by
  refine ⟨rfl, ?_, ?_⟩
  · show (if (primes_in_range a b).length ≤ 200 then primes_in_range a b
        else (primes_in_range a b).take 200) =
      (primes_in_range a b).take (min (primes_in_range a b).length 200)
    rcases le_or_lt (primes_in_range a b).length 200 with h | h
    · rw [if_pos h, min_eq_left h, List.take_length]
    · rw [if_neg (not_le.mpr h), min_eq_right h.le]
  · show decide (200 < (primes_in_range a b).length) = true ↔
      200 < (primes_in_range a b).length
    exact decide_eq_true_iff

/-- The update `register_duration` leaves `total_requests` unchanged. -/
theorem register_duration_total (s : ServerStats) (d : ℚ) :
    (s.register_duration d).total_requests = s.total_requests := by
  unfold ServerStats.register_duration cumStep maxStep
  split <;> rfl

/-- The update `register_duration` leaves `prime_checks` unchanged. -/
theorem register_duration_prime (s : ServerStats) (d : ℚ) :
    (s.register_duration d).prime_checks = s.prime_checks := by
  unfold ServerStats.register_duration cumStep maxStep
  split <;> rfl

/-- The update `register_duration` leaves `range_requests` unchanged. -/
theorem register_duration_range (s : ServerStats) (d : ℚ) :
    (s.register_duration d).range_requests = s.range_requests := by
  unfold ServerStats.register_duration cumStep maxStep
  split <;> rfl

/-- The update `register_duration` leaves `range_counts` unchanged. -/
theorem register_duration_counts (s : ServerStats) (d : ℚ) :
    (s.register_duration d).range_counts = s.range_counts := by
  unfold ServerStats.register_duration cumStep maxStep
  split <;> rfl

/-- C1: starting from the all-zero stats, after any sequence of
`execute_prime` / `execute_range` / `execute_count` / `stats` operations
the counter identity `total_requests = prime_checks + range_requests +
range_counts` holds, and the `stats` operation changes nothing. -/
theorem stats_counter_invariant (ops : List DispatcherOp) :
    ((runOps ops).total_requests =
      (runOps ops).prime_checks + (runOps ops).range_requests +
        (runOps ops).range_counts) ∧
    ∀ s : ServerStats, applyOp s DispatcherOp.stats = s := by
  constructor
  · suffices h : ∀ (l : List DispatcherOp) (s : ServerStats),
        s.total_requests = s.prime_checks + s.range_requests + s.range_counts →
        (l.foldl applyOp s).total_requests =
          (l.foldl applyOp s).prime_checks + (l.foldl applyOp s).range_requests +
            (l.foldl applyOp s).range_counts from h ops {} rfl
    intro l
    induction l with
    | nil => exact fun s h => h
    | cons op rest ih =>
      intro s h
      refine ih _ ?_
      cases op with
      | prime n d =>
        simp only [List.foldl, applyOp, execute_prime, update_stats,
          register_duration_total, register_duration_prime, register_duration_range,
          register_duration_counts]
        simp [bumpCommand, incTotal]
        omega
      | range a b d =>
        simp only [List.foldl, applyOp, execute_range, update_stats,
          register_duration_total, register_duration_prime, register_duration_range,
          register_duration_counts]
        simp [bumpCommand, incTotal]
        omega
      | count a b d =>
        simp only [List.foldl, applyOp, execute_count, update_stats,
          register_duration_total, register_duration_prime, register_duration_range,
          register_duration_counts]
        simp [bumpCommand, incTotal]
        omega
      | stats => exact h
  · intro s
    rfl

/-- C8: the average duration is derived, never stored — it equals
`cumulative_duration / total_requests` when `total_requests > 0` and `0`
otherwise (so `average · total = cumulative` always) — and `snapshot`
reports the average and maximum durations rounded to 6 decimal digits. -/
theorem average_duration_derived (s : ServerStats) :
    s.snapshot.average_duration_sec = round6 s.average_duration ∧
    s.snapshot.max_duration_sec = round6 s.max_duration ∧
    s.average_duration =
      (if s.total_requests = 0 then 0 else s.cumulative_duration / (s.total_requests : ℚ)) ∧
    s.average_duration * (s.total_requests : ℚ) =
      (if s.total_requests = 0 then 0 else s.cumulative_duration) := by
  refine ⟨rfl, rfl, rfl, ?_⟩
  unfold ServerStats.average_duration
  by_cases h : s.total_requests = 0
  · rw [if_pos h, if_pos h, zero_mul]
  · rw [if_neg h, if_neg h]
    exact div_mul_cancel₀ _ (Nat.cast_ne_zero.mpr h)

/-- C5 counterexample: a frame whose `data` field is present with value
`null` is NOT rejected — `from_wire` decodes it successfully with an empty
data mapping, although `null` is not a JSON object. -/
theorem from_wire_null_data_accepted :
    jget [("command", Json.str "x"), ("data", Json.null)] "data" = some Json.null ∧
    Json.isObj Json.null = false ∧
    Message.from_wire (some (Json.obj [("command", Json.str "x"), ("data", Json.null)])) =
      Except.ok { command := "x", data := [] } :=
  ⟨rfl, rfl, rfl⟩

/-- C5 (amended): `from_wire` fails with `ProtocolError` exactly when the
line is not valid JSON, or the top-level value is not an object, or the
`command` field is missing or not a string, or the `data` field is present
with a value that is neither `null` nor an object; a `null` `data` value,
like an absent one, defaults to the empty mapping, and on success the
command string is lower-cased. -/
theorem from_wire_characterization :
    (Message.from_wire none = Except.error "payload is not valid JSON") ∧
    (∀ j : Json, j.isObj = false →
      Message.from_wire (some j) = Except.error "payload must be a JSON object") ∧
    (∀ fields, (∀ c : String, jget fields "command" ≠ some (Json.str c)) →
      Message.from_wire (some (Json.obj fields)) =
        Except.error "command field must be a string") ∧
    (∀ fields c, jget fields "command" = some (Json.str c) →
      (jget fields "data" = none ∨ jget fields "data" = some Json.null) →
      Message.from_wire (some (Json.obj fields)) =
        Except.ok { command := lowerStr c, data := [] }) ∧
    (∀ fields c d, jget fields "command" = some (Json.str c) →
      jget fields "data" = some (Json.obj d) →
      Message.from_wire (some (Json.obj fields)) =
        Except.ok { command := lowerStr c, data := d }) ∧
    (∀ fields c v, jget fields "command" = some (Json.str c) →
      jget fields "data" = some v → v ≠ Json.null → v.isObj = false →
      Message.from_wire (some (Json.obj fields)) =
        Except.error "data field must be a JSON object") := by
  refine ⟨rfl, ?_, ?_, ?_, ?_, ?_⟩
  · intro j h
    cases j <;> first | rfl | simp [Json.isObj] at h
  · intro fields h
    rcases hc : jget fields "command" with _ | val
    · simp [Message.from_wire, hc]
    · cases val <;> simp [Message.from_wire, hc]
      exact absurd hc (h _)
  · intro fields c hc hd
    rcases hd with hd | hd <;> simp [Message.from_wire, hc, hd]
  · intro fields c d hc hd
    simp [Message.from_wire, hc, hd]
  · intro fields c v hc hd hnull hobj
    cases v <;> simp_all [Message.from_wire, hc, hd, Json.isObj]

/-- Witness for C5 (amended): a frame with no `data` field and an
upper-case command decodes to the lower-cased command and empty data. -/
theorem from_wire_characterization_witness :
    Message.from_wire (some (Json.obj [("command", Json.str "PING")])) =
      Except.ok { command := lowerStr "PING", data := [] } :=
  from_wire_characterization.2.2.2.1 [("command", Json.str "PING")] "PING" rfl (Or.inl rfl)

/-- C6 counterexample: a field holding JSON `true` — which is not an
integer — is NOT rejected by `_require_int`; Python's
`isinstance(value, int)` accepts booleans, and the value acts as `1`. -/
theorem require_int_accepts_bool :
    jget [("number", Json.bool true)] "number" = some (Json.bool true) ∧
    Json.isInt (Json.bool true) = false ∧
    require_int [("number", Json.bool true)] "number" = Except.ok 1 :=
  ⟨rfl, rfl, rfl⟩

/-- C6 (amended): `_require_int` fails with `field '<key>' must be an
integer` exactly when the field is absent or its value is neither an
integer nor a boolean (Python's `bool` being an `int` subtype); an integer
value is returned unchanged, a boolean as `1`/`0`. -/
theorem require_int_characterization (data : List (String × Json)) (key : String) :
    (jget data key = none → require_int data key = Except.error (intFieldError key)) ∧
    (∀ v : Json, jget data key = some v → v.isInt = false → v.isBool = false →
      require_int data key = Except.error (intFieldError key)) ∧
    (∀ i : Int, jget data key = some (Json.int i) →
      require_int data key = Except.ok i) ∧
    (∀ b : Bool, jget data key = some (Json.bool b) →
      require_int data key = Except.ok (if b then 1 else 0)) := by
  refine ⟨?_, ?_, ?_, ?_⟩
  · intro h
    simp [require_int, h]
  · intro v hv hint hbool
    cases v <;> simp_all [require_int, Json.isInt, Json.isBool]
  · intro i hi
    simp [require_int, hi]
  · intro b hb
    simp [require_int, hb]

/-- Witness for C6 (amended): looking up a key in empty data fails with
the required message. -/
theorem require_int_characterization_witness :
    require_int [] "number" = Except.error (intFieldError "number") :=
  (require_int_characterization [] "number").1 rfl

/-- C7 counterexample: client ids are NOT globally unique — the counter is
decremented on disconnect (server.py line 206 calls
`_register_client(-1)`), so the trace connect/disconnect/connect hands out
the id 1 twice. -/
theorem client_ids_reused :
    clientIds [SessionEv.conn, SessionEv.disc, SessionEv.conn] 0 = [1, 1] ∧
    ¬ (∀ evs : List SessionEv, (clientIds evs 0).Pairwise (fun i j => i ≠ j)) := by
  refine ⟨rfl, fun h => ?_⟩
  have h2 := h [SessionEv.conn, SessionEv.disc, SessionEv.conn]
  rw [show clientIds [SessionEv.conn, SessionEv.disc, SessionEv.conn] 0 = [1, 1] from rfl]
    at h2
  obtain ⟨hne, -⟩ := List.pairwise_cons.mp h2
  exact hne 1 (by simp) rfl

/-- C7 (amended): the client id equals the shared counter after its
increment — the number of currently active sessions — so along any stretch
of session starts with no intervening disconnect the ids are strictly
increasing (`c+1, c+2, ...`), but ids are reused once sessions end. -/
theorem client_id_monotone_without_disconnects (evs : List SessionEv) (c : Int)
    (h : ∀ e ∈ evs, e = SessionEv.conn) :
    (clientIds evs c).Pairwise (· < ·) ∧
    clientIds evs c = (List.range evs.length).map (fun i : Nat => c + (i : Int) + 1) := by
  induction evs generalizing c with
  | nil => exact ⟨List.Pairwise.nil, rfl⟩
  | cons e rest ih =>
    have he : e = SessionEv.conn := h e (List.mem_cons_self e rest)
    have hrest : ∀ e ∈ rest, e = SessionEv.conn :=
      fun x hx => h x (List.mem_cons_of_mem e hx)
    obtain ⟨ihp, ihe⟩ := ih (c + 1) hrest
    subst he
    constructor
    · rw [show clientIds (SessionEv.conn :: rest) c
          = register_client c 1 :: clientIds rest (register_client c 1) from rfl]
      refine List.pairwise_cons.mpr ⟨?_, ihp⟩
      intro x hx
      rw [show register_client c 1 = c + 1 from rfl] at hx ⊢
      rw [ihe] at hx
      rw [List.mem_map] at hx
      obtain ⟨i, hi, rfl⟩ := hx
      omega
    · rw [show clientIds (SessionEv.conn :: rest) c
          = register_client c 1 :: clientIds rest (register_client c 1) from rfl]
      rw [show register_client c 1 = c + 1 from rfl, ihe,
        List.length_cons, List.range_succ_eq_map, List.map_cons, List.map_map]
      congr 1
      · simp
      · apply List.map_congr_left
        intro i hi
        simp [Function.comp]
        ring

/-- Witness for C7 (amended) on two back-to-back connects from counter 0:
ids `[1, 2]`, strictly increasing. -/
theorem client_id_monotone_witness :
    (clientIds [SessionEv.conn, SessionEv.conn] 0).Pairwise (· < ·) ∧
    clientIds [SessionEv.conn, SessionEv.conn] 0 =
      (List.range 2).map (fun i : Nat => 0 + (i : Int) + 1) :=
  client_id_monotone_without_disconnects [SessionEv.conn, SessionEv.conn] 0 (by decide)

/-- C10: decoding the wire object produced by `to_wire` returns the
original message whenever its command is already lower-case. -/
theorem wire_round_trip (m : Message) (h : lowerStr m.command = m.command) :
    Message.from_wire (some m.to_wire) = Except.ok m := by
  have base : Message.from_wire (some m.to_wire) =
      Except.ok { command := lowerStr m.command, data := m.data } := rfl
  rw [base, h]

/-- Witness for C10: a concrete `prime` request round-trips. -/
theorem wire_round_trip_witness :
    Message.from_wire (some (Message.to_wire
        { command := "prime", data := [("number", Json.int 17)] })) =
      Except.ok { command := "prime", data := [("number", Json.int 17)] } :=
  wire_round_trip { command := "prime", data := [("number", Json.int 17)] } rfl

/-- The mutual-exclusion invariant of `_stats_lock`: in every reachable
state, a thread not holding the lock is outside any critical section; when
the lock is free the stats record is exactly the fold of the completed
critical sections; and the lock holder has applied precisely a prefix of
its critical section's statements on top of that fold. -/
theorem reachable_inv (progs : Nat → List StatsOp) (σ : Sys) (h : Reachable progs σ) :
    (∀ t, σ.lock ≠ some t → σ.cur t = none) ∧
    (σ.lock = none → σ.stats = applyHist σ.hist) ∧
    (∀ t op rem, σ.lock = some t → σ.cur t = some (op, rem) →
      ∃ done, microSteps op = done ++ rem ∧
        σ.stats = done.foldl (fun s f => f s) (applyHist σ.hist)) := by
  induction h with
  | refl =>
    refine ⟨fun t _ => rfl, fun _ => rfl, fun t op rem hl hc => ?_⟩
    exact absurd hl (by simp [Sys.init])
  | tail hsteps hstep ih =>
    obtain ⟨ih1, ih2, ih3⟩ := ih
    cases hstep with
    | acquire t op rest hl hc ht =>
      refine ⟨?_, ?_, ?_⟩
      · intro u hu
        dsimp only at hu ⊢
        have hut : u ≠ t := fun he => hu (he ▸ rfl)
        rw [Function.update_noteq hut]
        exact ih1 u (by rw [hl]; exact fun he => Option.noConfusion he)
      · intro hnone
        dsimp only at hnone
        exact absurd hnone (by simp)
      · intro u op' rem' hu hc'
        dsimp only at hu hc'
        have hut : t = u := by
          injection hu
        subst hut
        rw [Function.update_same] at hc'
        rw [Option.some.injEq, Prod.mk.injEq] at hc'
        obtain ⟨rfl, rfl⟩ := hc'
        refine ⟨[], by simp, ?_⟩
        dsimp only
        rw [List.foldl_nil]
        exact ih2 hl
    | micro t op f fs hl hc =>
      refine ⟨?_, ?_, ?_⟩
      · intro u hu
        dsimp only at hu ⊢
        have hut : u ≠ t := by
          intro he
          subst he
          exact hu hl
        rw [Function.update_noteq hut]
        exact ih1 u (by rw [hl]; simpa using fun he => hut he.symm)
      · intro hnone
        dsimp only at hnone
        rw [hl] at hnone
        exact absurd hnone (by simp)
      · intro u op' rem' hu hc'
        dsimp only at hu hc' ⊢
        rw [hl, Option.some.injEq] at hu
        subst hu
        rw [Function.update_same] at hc'
        rw [Option.some.injEq, Prod.mk.injEq] at hc'
        obtain ⟨rfl, rfl⟩ := hc'
        obtain ⟨done, hms, hstats⟩ := ih3 t op (f :: fs) hl hc
        refine ⟨done ++ [f], by rw [hms]; simp, ?_⟩
        rw [List.foldl_append, List.foldl_cons, List.foldl_nil, ← hstats]
    | release t op hl hc =>
      refine ⟨?_, ?_, ?_⟩
      · intro u hu
        dsimp only at hu ⊢
        by_cases hut : u = t
        · subst hut
          rw [Function.update_same]
        · rw [Function.update_noteq hut]
          refine ih1 u ?_
          rw [hl]
          intro he
          injection he with he
          exact hut he.symm
      · intro hnone
        dsimp only
        obtain ⟨done, hms, hstats⟩ := ih3 t op [] hl hc
        rw [List.append_nil] at hms
        subst hms
        rw [applyHist, List.foldl_append, List.foldl_cons, List.foldl_nil]
        rw [hstats, applyHist, runStatsOp]
      · intro u op' rem' hu hc'
        dsimp only at hu
        exact absurd hu (by simp)

/-- C9: under any interleaving of any number of session threads, whenever
the lock is free — and in particular whenever a thread is inside the
critical section of `TaskDispatcher.stats` taking a snapshot — the shared
stats record equals the fold of a whole number of completed critical
sections: no reader ever observes a partially updated record.  Moreover
one completed `update` critical section has exactly the net effect of
`_update_stats`. -/
theorem snapshot_consistent (progs : Nat → List StatsOp) (σ : Sys)
    (h : Reachable progs σ) :
    (σ.lock = none → σ.stats = applyHist σ.hist) ∧
    (∀ t, σ.cur t = some (StatsOp.snap, []) → σ.stats = applyHist σ.hist) ∧
    (∀ (cmd : String) (d : ℚ) (s : ServerStats),
      runStatsOp s (StatsOp.update cmd d) = update_stats cmd d s) := by
  obtain ⟨h1, h2, h3⟩ := reachable_inv progs σ h
  refine ⟨h2, fun t hcur => ?_, fun cmd d s => rfl⟩
  rcases hσ : σ.lock with _ | t'
  · have := h1 t (by rw [hσ]; exact fun he => Option.noConfusion he)
    rw [this] at hcur
    exact absurd hcur (by simp)
  · by_cases htt : t' = t
    · subst htt
      obtain ⟨done, hms, hstats⟩ := h3 t' StatsOp.snap [] hσ hcur
      rw [List.append_nil] at hms
      have hdone : done = [] := by
        rw [← hms]
        rfl
      rw [hdone, List.foldl_nil] at hstats
      exact hstats
    · have := h1 t (by rw [hσ]; intro he; injection he with he; exact htt he)
      rw [this] at hcur
      exact absurd hcur (by simp)

/-- Witness for C9: the state reached by one thread acquiring the lock to
take a snapshot is reachable, and the theorem applies to it. -/
theorem snapshot_consistent_witness :
    ({ Sys.init (fun _ => [StatsOp.snap]) with
        lock := some 0
        cur := Function.update (Sys.init (fun _ => [StatsOp.snap])).cur 0
          (some (StatsOp.snap, microSteps StatsOp.snap))
        todo := Function.update (Sys.init (fun _ => [StatsOp.snap])).todo 0 [] } : Sys).stats =
      applyHist ({ Sys.init (fun _ => [StatsOp.snap]) with
        lock := some 0
        cur := Function.update (Sys.init (fun _ => [StatsOp.snap])).cur 0
          (some (StatsOp.snap, microSteps StatsOp.snap))
        todo := Function.update (Sys.init (fun _ => [StatsOp.snap])).todo 0 [] } : Sys).hist :=
  (snapshot_consistent (fun _ => [StatsOp.snap]) _
    (Relation.ReflTransGen.single
      (Step.acquire (Sys.init (fun _ => [StatsOp.snap])) 0 StatsOp.snap [] rfl rfl rfl))).2.1
    0 rfl

end DistribCalc
